import Mathlib

/-!
Shallow embedding of `src/cli/command_object_verify.go` (kopia `object verify`
command): a deduplicating graph-traversal verifier with an error budget,
priority work queue, and progress/ETA estimation.

Object identifiers (`object.ID`) are modelled as `Nat`.  The external
collaborators (storage layer, snapshot manifest store, random source) are
modelled as an explicit environment `Env` of pure functions.  The concurrent
`parallelwork.Queue` is modelled as a sequential double-ended queue processed
with explicit fuel; each enqueued closure is recorded as a `Task` value and
the processing loop records the tasks it executes.
-/

set_option autoImplicit false

namespace ObjectVerify

/-- One directory entry as seen by `doVerifyDirectory`: the result of
`e.Metadata()` (name, file mode directory bit, file size) together with
`e.(object.HasObjectID).ObjectID()`. -/
structure Entry where
  name : String
  isDir : Bool
  fileSize : Int
  objectID : Nat
deriving DecidableEq, Repr

/-- The distinct failure shapes produced by the four `reportError` call
sites (`fmt.Errorf` messages in the Go code). -/
inductive FailureKind where
  /-- Failure `error reading %v: %v` — directory listing failed. -/
  | readDir (oid : Nat) (msg : String)
  /-- Failure `error verifying %v: %v` — `VerifyObject` returned an error. -/
  | verify (oid : Nat) (msg : String)
  /-- Failure `invalid object length %q, %v, expected %v` — length mismatch. -/
  | invalidLength (oid : Nat) (actual expected : Int)
  /-- Failure `error reading object %v: %v` — sampled deep read failed. -/
  | readObject (oid : Nat) (msg : String)
deriving DecidableEq, Repr

/-- A failure record: the path label passed to `reportError` plus the error. -/
structure Failure where
  path : String
  kind : FailureKind
deriving DecidableEq, Repr

/-- A work item placed on the `parallelwork.Queue`: the closures built by
`enqueueVerifyDirectory` (calling `doVerifyDirectory ctx oid path`) and
`enqueueVerifyObject` (calling `doVerifyObject ctx oid path expectedLength`). -/
inductive Task where
  | dir (oid : Nat) (path : String)
  | obj (oid : Nat) (path : String) (expectedLength : Int)
deriving DecidableEq, Repr

/-- The object identifier a task carries. -/
def Task.oid : Task → Nat
  | .dir o _ => o
  | .obj o _ _ => o

/-- The mutable state of the Go `verifier` struct: the `seen` map (as the
list of identifiers inserted), the accumulated `errors` slice, and the
contents of the work queue (front of the queue at the head of the list). -/
structure VState where
  seen : List Nat
  errors : List Failure
  queue : List Task
deriving DecidableEq, Repr

/-- A snapshot manifest root entry: `man.RootEntry.Type` classified as
directory or not, and `man.RootObjectID()`. -/
structure RootEntry where
  isDir : Bool
  rootObjectID : Nat
deriving DecidableEq, Repr

/-- A snapshot manifest as consumed by `enqueueRootsToVerify`: source label,
formatted start time, and optional root entry. -/
structure Manifest where
  source : String
  startTime : String
  rootEntry : Option RootEntry
deriving DecidableEq, Repr

/-- The external collaborators: storage layer (`Readdir`, `VerifyObject`,
object open/read), the random draw used for sampling, and the snapshot
manifest layer used for root resolution.  All are pure functions of the
object identifier / input string, which is faithful for a single run. -/
structure Env where
  /-- Models `d.Readdir(ctx)` for the directory with the given id. -/
  readdir : Nat → Except String (List Entry)
  /-- Models `v.om.VerifyObject(ctx, oid)`: the returned length and error
  (the length result is read even when the error is non-nil). -/
  verifyObject : Nat → Int × Option String
  /-- Models `v.readEntireObject(ctx, oid, path)`: `some msg` when the open or
  the full sequential read fails. -/
  readObject : Nat → Option String
  /-- Models `rand.Intn(100)` drawn inside `doVerifyObject` for this object. -/
  randDraw : Nat → Nat
  /-- Models `snapshot.ParseSourceInfo(srcStr, ...)`. -/
  parseSourceInfo : String → Except String String
  /-- Models `mgr.ListSnapshotManifests(src?)` (`none` = all sources). -/
  listSnapshotManifests : Option String → List String
  /-- Models `mgr.LoadSnapshots(manifestIDs)`. -/
  loadSnapshots : List String → Except String (List Manifest)
  /-- Models `parseObjectID(ctx, mgr, oidStr)`. -/
  parseObjectID : String → Except String Nat

/-- The command-line configuration consumed by the run: `--max-errors`
(`verifyCommandErrorThreshold`), `--verify-files-percent`, `--all-sources`,
`--sources`, `--directory-id`, `--file-id`. -/
structure Config where
  maxErrors : Int
  filesPercent : Int
  allSources : Bool
  sources : List String
  dirObjectIDs : List String
  fileObjectIDs : List String

/-- Embeds `verifier.shouldEnqueue`: checks the `seen` map; if present returns
`false`, otherwise inserts and returns `true`.  The returned state is the
updated verifier state. -/
def shouldEnqueue (oid : Nat) (s : VState) : Bool × VState :=
  if s.seen.contains oid then (false, s)
  else (true, { s with seen := oid :: s.seen })

/-- Embeds `verifier.tooManyErrors`: `false` when the threshold is 0, otherwise
whether the accumulated error count has reached the threshold. -/
def tooManyErrors (cfg : Config) (s : VState) : Bool :=
  if cfg.maxErrors = 0 then false
  else (s.errors.length : Int) ≥ cfg.maxErrors

/-- Embeds `verifier.reportError`: appends the failure record and returns
`len(v.errors) >= *verifyCommandErrorThreshold` on the updated list. -/
def reportError (cfg : Config) (path : String) (k : FailureKind) (s : VState) :
    Bool × VState :=
  let s' := { s with errors := s.errors ++ [⟨path, k⟩] }
  (decide ((s'.errors.length : Int) ≥ cfg.maxErrors), s')

/-- Embeds `verifier.enqueueVerifyDirectory`: dedup through `shouldEnqueue`, then
push the directory task to the front of the queue. -/
def enqueueVerifyDirectory (oid : Nat) (path : String) (s : VState) : VState :=
  match shouldEnqueue oid s with
  | (false, s') => s'
  | (true, s') => { s' with queue := Task.dir oid path :: s'.queue }

/-- Embeds `verifier.enqueueVerifyObject`: dedup through `shouldEnqueue`, then push
the object task to the back of the queue. -/
def enqueueVerifyObject (oid : Nat) (path : String) (expectedLength : Int)
    (s : VState) : VState :=
  match shouldEnqueue oid s with
  | (false, s') => s'
  | (true, s') => { s' with queue := s'.queue ++ [Task.obj oid path expectedLength] }

/-- The child loop of `doVerifyDirectory`: for each entry in listing order,
first poll `tooManyErrors` and break if it is set, otherwise classify the
entry by file mode and enqueue a directory or object task for it. -/
def processEntries (cfg : Config) (path : String) :
    List Entry → VState → VState
  | [], s => s
  | e :: rest, s =>
    if tooManyErrors cfg s then s
    else
      let childPath := path ++ "/" ++ e.name
      let s' :=
        if e.isDir then enqueueVerifyDirectory e.objectID childPath s
        else enqueueVerifyObject e.objectID childPath e.fileSize s
      processEntries cfg path rest s'

/-- Embeds `verifier.doVerifyDirectory`: list the directory; on failure report one
error and return; on success iterate the entries. -/
def doVerifyDirectory (env : Env) (cfg : Config) (oid : Nat) (path : String)
    (s : VState) : VState :=
  match env.readdir oid with
  | .error e => (reportError cfg path (.readDir oid e) s).2
  | .ok entries => processEntries cfg path entries s

/-- Embeds `verifier.doVerifyObject`: call `VerifyObject` and report its error if
any; independently report a length mismatch when an expected length was
supplied (`expectedLength >= 0`) and differs from the actual length;
independently, when the random draw is below the sampling percentage,
perform a full read and report its failure. -/
def doVerifyObject (env : Env) (cfg : Config) (oid : Nat) (path : String)
    (expectedLength : Int) (s : VState) : VState :=
  let length := (env.verifyObject oid).1
  let s1 :=
    match (env.verifyObject oid).2 with
    | some e => (reportError cfg path (.verify oid e) s).2
    | none => s
  let s2 :=
    if expectedLength ≥ 0 ∧ length ≠ expectedLength then
      (reportError cfg path (.invalidLength oid length expectedLength) s1).2
    else s1
  if ((env.randDraw oid % 100 : Nat) : Int) < cfg.filesPercent then
    match env.readObject oid with
    | some e => (reportError cfg path (.readObject oid e) s2).2
    | none => s2
  else s2

/-- Dispatch one dequeued closure. -/
def runTask (env : Env) (cfg : Config) : Task → VState → VState
  | .dir oid path, s => doVerifyDirectory env cfg oid path s
  | .obj oid path el, s => doVerifyObject env cfg oid path el s

/-- Embeds `workQueue.Process`: repeatedly pop the front task and run it, until the
queue is empty (or fuel runs out — the Go queue blocks until drained; fuel
only serves Lean's termination checker).  Returns the final state together
with the list of executed tasks in execution order. -/
def processQueue (env : Env) (cfg : Config) :
    Nat → VState → List Task → VState × List Task
  | 0, s, ex => (s, ex)
  | fuel + 1, s, ex =>
    match s.queue with
    | [] => (s, ex)
    | t :: rest =>
      processQueue env cfg fuel (runTask env cfg t { s with queue := rest }) (ex ++ [t])

/-- The source-parsing loop of `loadSourceManifests`: parse each source
string in order (returning the first parse error) and concatenate the
manifest identifiers listed for each parsed source. -/
def collectManifestIDs (env : Env) : List String → Except String (List String)
  | [] => .ok []
  | srcStr :: rest =>
    match env.parseSourceInfo srcStr with
    | .error e => .error ("error parsing " ++ srcStr ++ ": " ++ e)
    | .ok src =>
      match collectManifestIDs env rest with
      | .error e => .error e
      | .ok more => .ok (env.listSnapshotManifests (some src) ++ more)

/-- Embeds `loadSourceManifests`: list all snapshot manifests, or those of each
parsed source, and load them. -/
def loadSourceManifests (env : Env) (cfg : Config) :
    Except String (List Manifest) :=
  if cfg.allSources then env.loadSnapshots (env.listSnapshotManifests none)
  else
    match collectManifestIDs env cfg.sources with
    | .error e => .error e
    | .ok ids => env.loadSnapshots ids

/-- The first loop of `enqueueRootsToVerify`: for each manifest with a root
entry, enqueue a directory task for directory-typed roots and an object
task with expected length `-1` otherwise. -/
def enqueueManifestRoots : List Manifest → VState → VState
  | [], s => s
  | man :: rest, s =>
    let path := man.source ++ "@" ++ man.startTime
    let s' :=
      match man.rootEntry with
      | none => s
      | some re =>
        if re.isDir then enqueueVerifyDirectory re.rootObjectID path s
        else enqueueVerifyObject re.rootObjectID path (-1) s
    enqueueManifestRoots rest s'

/-- The `--directory-id` loop of `enqueueRootsToVerify`: parse each
identifier (a parse error aborts, carrying the state reached) and enqueue a
directory task for it. -/
def enqueueDirIDs (env : Env) : List String → VState → Option String × VState
  | [], s => (none, s)
  | oidStr :: rest, s =>
    match env.parseObjectID oidStr with
    | .error e => (some e, s)
    | .ok oid => enqueueDirIDs env rest (enqueueVerifyDirectory oid oidStr s)

/-- The `--file-id` loop of `enqueueRootsToVerify`: parse each identifier
and enqueue an object task with expected length `-1` for it. -/
def enqueueFileIDs (env : Env) : List String → VState → Option String × VState
  | [], s => (none, s)
  | oidStr :: rest, s =>
    match env.parseObjectID oidStr with
    | .error e => (some e, s)
    | .ok oid => enqueueFileIDs env rest (enqueueVerifyObject oid oidStr (-1) s)

/-- Embeds `enqueueRootsToVerify`: load the manifests (an error is returned to the
caller), enqueue the manifest roots, then the explicit directory ids, then
the explicit file ids.  `some e` in the first component is the non-nil
error returned to `runVerifyCommand`; the second component is the verifier
state at that point. -/
def enqueueRootsToVerify (env : Env) (cfg : Config) (s : VState) :
    Option String × VState :=
  match loadSourceManifests env cfg with
  | .error e => (some e, s)
  | .ok manifests =>
    let s1 := enqueueManifestRoots manifests s
    match enqueueDirIDs env cfg.dirObjectIDs s1 with
    | (some e, s2) => (some e, s2)
    | (none, s2) => enqueueFileIDs env cfg.fileObjectIDs s2

/-- The verifier state built in `runVerifyCommand`: empty `seen` map, no
errors, empty queue. -/
def initialState : VState := { seen := [], errors := [], queue := [] }

/-- The result of a run: the error returned by `runVerifyCommand` (either
the root-resolution error, or the aggregate `encountered %v errors`, or
nil = success). -/
inductive RunResult where
  | rootFailure (msg : String)
  | aggregate (count : Nat)
  | success
deriving DecidableEq, Repr

/-- Embeds `runVerifyCommand`: seed the roots (returning any root-resolution error
without processing the queue), process the work queue, then return success
iff no errors accumulated and otherwise the aggregate error carrying the
failure count.  Also returns the final verifier state and the executed
tasks. -/
def runVerifyCommand (env : Env) (cfg : Config) (fuel : Nat) :
    RunResult × VState × List Task :=
  match enqueueRootsToVerify env cfg initialState with
  | (some e, s) => (.rootFailure e, s, [])
  | (none, s) =>
    let (s', ex) := processQueue env cfg fuel s []
    if s'.errors.length = 0 then (.success, s', ex)
    else (.aggregate s'.errors.length, s', ex)

/-- Embeds `verifier.progressCallback`, reduced to whether the ` remaining …
(ETA …)` suffix is included.  Times are in integer nanoseconds
(`time.Duration`).  Inside the guard the code computes
`predictedSeconds = elapsed.Seconds() / (completed/enqueued)` and then
`time.Duration(predictedSeconds) * time.Second`, i.e. it truncates the
predicted duration to a whole number of seconds before comparing with the
elapsed time; `elapsedNs * enqueued / (1000000000 * completed)` is exactly
that truncation (all quantities are positive inside the guard). -/
def progressShowsETA (elapsedNs enqueued completed : Int) : Bool :=
  if elapsedNs > 1000000000 ∧ enqueued > 0 ∧ completed > 0 then
    let predictedWholeSeconds := elapsedNs * enqueued / (1000000000 * completed)
    decide (predictedWholeSeconds * 1000000000 - elapsedNs > 0)
  else false

/-- The remaining-duration formula as the spec words it:
`remaining = elapsed / (completed/enqueued) - elapsed`, in exact
(nanosecond) arithmetic with no truncation. -/
def specClaimedRemaining (elapsedNs enqueued completed : Int) : ℚ :=
  (elapsedNs : ℚ) / ((completed : ℚ) / (enqueued : ℚ)) - (elapsedNs : ℚ)

/-- Modelled from the spec: the ETA condition exactly as claim C9 words
it — ETA shown iff elapsed exceeds one second, both counters are positive,
and the untruncated projected remaining duration is positive. -/
def specClaimedETACondition (elapsedNs enqueued completed : Int) : Prop :=
  elapsedNs > 1000000000 ∧ enqueued > 0 ∧ completed > 0 ∧
    specClaimedRemaining elapsedNs enqueued completed > 0

/-- The failure records appended by one `doVerifyObject` call: one record
per failing check, in program order — verification error, then length
mismatch, then sampled deep-read failure. -/
def objNewErrors (env : Env) (cfg : Config) (oid : Nat) (path : String)
    (expectedLength : Int) : List Failure :=
  (match (env.verifyObject oid).2 with
   | some e => [⟨path, .verify oid e⟩]
   | none => []) ++
  ((if expectedLength ≥ 0 ∧ (env.verifyObject oid).1 ≠ expectedLength then
     [⟨path, .invalidLength oid (env.verifyObject oid).1 expectedLength⟩]
   else []) ++
  (if ((env.randDraw oid % 100 : Nat) : Int) < cfg.filesPercent then
     match env.readObject oid with
     | some e => [⟨path, .readObject oid e⟩]
     | none => []
   else []))

/-- Whether a failure kind is the length-mismatch failure. -/
def FailureKind.isLengthMismatch : FailureKind → Bool
  | .invalidLength _ _ _ => true
  | _ => false

/-! ### Characterization lemmas for the state-mutating operations -/

theorem shouldEnqueue_of_not_seen {oid : Nat} {s : VState}
    (h : oid ∉ s.seen) :
    shouldEnqueue oid s = (true, { s with seen := oid :: s.seen }) := by
  simp [shouldEnqueue, h]

theorem shouldEnqueue_of_seen {oid : Nat} {s : VState}
    (h : oid ∈ s.seen) :
    shouldEnqueue oid s = (false, s) := by
  simp [shouldEnqueue, h]

theorem enqueueVerifyDirectory_eq (oid : Nat) (path : String) (s : VState) :
    enqueueVerifyDirectory oid path s =
      if oid ∈ s.seen then s
      else { s with seen := oid :: s.seen, queue := Task.dir oid path :: s.queue } := by
  unfold enqueueVerifyDirectory shouldEnqueue
  by_cases h : oid ∈ s.seen <;> simp [h]

theorem enqueueVerifyObject_eq (oid : Nat) (path : String) (el : Int) (s : VState) :
    enqueueVerifyObject oid path el s =
      if oid ∈ s.seen then s
      else { s with seen := oid :: s.seen,
                    queue := s.queue ++ [Task.obj oid path el] } := by
  unfold enqueueVerifyObject shouldEnqueue
  by_cases h : oid ∈ s.seen <;> simp [h]

theorem reportError_snd (cfg : Config) (path : String) (k : FailureKind) (s : VState) :
    (reportError cfg path k s).2 = { s with errors := s.errors ++ [⟨path, k⟩] } := rfl

theorem doVerifyObject_eq (env : Env) (cfg : Config) (oid : Nat) (path : String)
    (el : Int) (s : VState) :
    doVerifyObject env cfg oid path el s =
      { s with errors := s.errors ++ objNewErrors env cfg oid path el } := by
  unfold doVerifyObject objNewErrors
  cases hv : (env.verifyObject oid).2 <;>
    cases hr : env.readObject oid <;>
    by_cases hl : el ≥ 0 ∧ (env.verifyObject oid).1 ≠ el <;>
    simp [hv, hr, hl, reportError] <;>
    split <;> simp

/-- Reference variant of the child loop with no error-budget polling:
processes every entry unconditionally.  Used to state that with threshold 0
the budget check never cuts the loop short. -/
def processEntriesAll (cfg : Config) (path : String) :
    List Entry → VState → VState
  | [], s => s
  | e :: rest, s =>
    let childPath := path ++ "/" ++ e.name
    let s' :=
      if e.isDir then enqueueVerifyDirectory e.objectID childPath s
      else enqueueVerifyObject e.objectID childPath e.fileSize s
    processEntriesAll cfg path rest s'

theorem tooManyErrors_zero (cfg : Config) (s : VState) :
    tooManyErrors { cfg with maxErrors := 0 } s = false := by
  simp [tooManyErrors]

theorem processEntries_stop {cfg : Config} {path : String} {e : Entry}
    {rest : List Entry} {s : VState} (h : tooManyErrors cfg s = true) :
    processEntries cfg path (e :: rest) s = s := by
  simp [processEntries, h]

theorem processEntries_zero (cfg : Config) (path : String) :
    ∀ (es : List Entry) (s : VState),
      processEntries { cfg with maxErrors := 0 } path es s =
        processEntriesAll { cfg with maxErrors := 0 } path es s := by
  intro es
  induction es with
  | nil => intro s; rfl
  | cons e rest ih =>
    intro s
    rw [processEntries, processEntriesAll, tooManyErrors_zero]
    simp only [Bool.false_eq_true, if_false]
    exact ih _

theorem doVerifyDirectory_listing_error {env : Env} {cfg : Config} {oid : Nat}
    {path : String} {e : String} {s : VState} (h : env.readdir oid = .error e) :
    doVerifyDirectory env cfg oid path s =
      { s with errors := s.errors ++ [⟨path, .readDir oid e⟩] } := by
  simp [doVerifyDirectory, h, reportError]

theorem doVerifyDirectory_listing_ok {env : Env} {cfg : Config} {oid : Nat}
    {path : String} {entries : List Entry} {s : VState}
    (h : env.readdir oid = .ok entries) :
    doVerifyDirectory env cfg oid path s = processEntries cfg path entries s := by
  simp [doVerifyDirectory, h]

/-! ### Monotonicity of `errors` and `seen` under every operation -/

theorem enqueueVerifyDirectory_errors (oid : Nat) (path : String) (s : VState) :
    (enqueueVerifyDirectory oid path s).errors = s.errors := by
  rw [enqueueVerifyDirectory_eq]; split <;> rfl

theorem enqueueVerifyObject_errors (oid : Nat) (path : String) (el : Int) (s : VState) :
    (enqueueVerifyObject oid path el s).errors = s.errors := by
  rw [enqueueVerifyObject_eq]; split <;> rfl

theorem processEntries_errors (cfg : Config) (path : String) :
    ∀ (es : List Entry) (s : VState),
      (processEntries cfg path es s).errors = s.errors := by
  intro es
  induction es with
  | nil => intro s; rfl
  | cons e rest ih =>
    intro s
    rw [processEntries]
    split
    · rfl
    · rw [ih]
      split <;> [rw [enqueueVerifyDirectory_errors]; rw [enqueueVerifyObject_errors]]

theorem doVerifyDirectory_errors (env : Env) (cfg : Config) (oid : Nat)
    (path : String) (s : VState) :
    ∃ l, (doVerifyDirectory env cfg oid path s).errors = s.errors ++ l := by
  unfold doVerifyDirectory
  cases h : env.readdir oid with
  | error e => exact ⟨[⟨path, .readDir oid e⟩], rfl⟩
  | ok entries => exact ⟨[], by rw [processEntries_errors]; simp⟩

theorem runTask_errors (env : Env) (cfg : Config) (t : Task) (s : VState) :
    ∃ l, (runTask env cfg t s).errors = s.errors ++ l := by
  cases t with
  | dir oid path => exact doVerifyDirectory_errors env cfg oid path s
  | obj oid path el =>
    exact ⟨objNewErrors env cfg oid path el, by rw [runTask, doVerifyObject_eq]⟩

theorem tooManyErrors_mono {cfg : Config} {s s' : VState}
    (hl : ∃ l, s'.errors = s.errors ++ l)
    (h : tooManyErrors cfg s = true) : tooManyErrors cfg s' = true := by
  obtain ⟨l, hl⟩ := hl
  unfold tooManyErrors at h ⊢
  split at h
  · exact absurd h (by simp)
  · split
    · exact absurd ‹cfg.maxErrors = 0› ‹¬cfg.maxErrors = 0›
    · simp only [decide_eq_true_eq] at h ⊢
      rw [hl]
      simp only [List.length_append]
      omega

theorem enqueueVerifyDirectory_seen_mono {o oid : Nat} {path : String} {s : VState}
    (h : o ∈ s.seen) : o ∈ (enqueueVerifyDirectory oid path s).seen := by
  rw [enqueueVerifyDirectory_eq]; split
  · exact h
  · exact List.mem_cons_of_mem _ h

theorem enqueueVerifyObject_seen_mono {o oid : Nat} {path : String} {el : Int}
    {s : VState} (h : o ∈ s.seen) : o ∈ (enqueueVerifyObject oid path el s).seen := by
  rw [enqueueVerifyObject_eq]; split
  · exact h
  · exact List.mem_cons_of_mem _ h

theorem processEntries_seen_mono {cfg : Config} {path : String} {o : Nat} :
    ∀ {es : List Entry} {s : VState}, o ∈ s.seen →
      o ∈ (processEntries cfg path es s).seen := by
  intro es
  induction es with
  | nil => intro s h; exact h
  | cons e rest ih =>
    intro s h
    rw [processEntries]
    split
    · exact h
    · apply ih
      split
      · exact enqueueVerifyDirectory_seen_mono h
      · exact enqueueVerifyObject_seen_mono h

theorem runTask_seen_mono {env : Env} {cfg : Config} {t : Task} {o : Nat}
    {s : VState} (h : o ∈ s.seen) : o ∈ (runTask env cfg t s).seen := by
  cases t with
  | dir oid path =>
    rw [runTask]
    unfold doVerifyDirectory
    cases hd : env.readdir oid with
    | error e => simpa [reportError] using h
    | ok entries => exact processEntries_seen_mono h
  | obj oid path el => rw [runTask, doVerifyObject_eq]; exact h

/-! ### The at-most-once enqueue invariant -/

/-- All object identifiers carried by tasks that are currently queued or
were already executed: one occurrence per enqueue event, since tasks leave
the queue only by being executed. -/
def enqueuedOids (s : VState) (ex : List Task) : List Nat :=
  (s.queue ++ ex).map Task.oid

/-- The dedup invariant: every identifier was enqueued at most once, and
every enqueued identifier is recorded in the `seen` map. -/
def DedupInv (s : VState) (ex : List Task) : Prop :=
  ∀ oid : Nat, (enqueuedOids s ex).count oid ≤ 1 ∧
    (oid ∈ enqueuedOids s ex → oid ∈ s.seen)

theorem DedupInv_initial : DedupInv initialState [] := by
  intro o
  simp [DedupInv, enqueuedOids, initialState]

theorem enqueueVerifyDirectory_inv {oid : Nat} {path : String} {s : VState}
    {ex : List Task} (h : DedupInv s ex) :
    DedupInv (enqueueVerifyDirectory oid path s) ex := by
  rw [enqueueVerifyDirectory_eq]
  split
  · exact h
  · rename_i hmem
    intro o
    obtain ⟨hc, hm⟩ := h o
    have hoids : enqueuedOids
        { s with seen := oid :: s.seen, queue := Task.dir oid path :: s.queue } ex =
        oid :: enqueuedOids s ex := by
      simp [enqueuedOids, Task.oid]
    refine ⟨?_, ?_⟩
    · rw [hoids, List.count_cons]
      by_cases ho : o = oid
      · subst ho
        have h0 : o ∉ enqueuedOids s ex := fun hx => hmem (hm hx)
        simp [List.count_eq_zero.mpr h0]
      · simp only [beq_iff_eq]
        have : ¬ oid = o := fun hx => ho hx.symm
        simp [this]
        omega
    · rw [hoids]
      intro hmo
      rcases List.mem_cons.mp hmo with rfl | hmo'
      · exact List.mem_cons_self _ _
      · exact List.mem_cons_of_mem _ (hm hmo')

theorem enqueueVerifyObject_inv {oid : Nat} {path : String} {el : Int}
    {s : VState} {ex : List Task} (h : DedupInv s ex) :
    DedupInv (enqueueVerifyObject oid path el s) ex := by
  rw [enqueueVerifyObject_eq]
  split
  · exact h
  · rename_i hmem
    intro o
    obtain ⟨hc, hm⟩ := h o
    have hcnt :
        (enqueuedOids { s with seen := oid :: s.seen, queue := s.queue ++ [Task.obj oid path el] } ex).count o =
        (oid :: enqueuedOids s ex).count o := by
      simp [enqueuedOids, Task.oid, List.count_append, List.count_cons]
      omega
    refine ⟨?_, ?_⟩
    · rw [hcnt, List.count_cons]
      by_cases ho : o = oid
      · subst ho
        have h0 : o ∉ enqueuedOids s ex := fun hx => hmem (hm hx)
        simp [List.count_eq_zero.mpr h0]
      · simp only [beq_iff_eq]
        have : ¬ oid = o := fun hx => ho hx.symm
        simp [this]
        omega
    · intro hmo
      have hpos : 0 < (oid :: enqueuedOids s ex).count o := by
        rw [← hcnt]
        exact List.count_pos_iff.mpr hmo
      have hmo2 : o ∈ oid :: enqueuedOids s ex := List.count_pos_iff.mp hpos
      rcases List.mem_cons.mp hmo2 with rfl | hmo'
      · exact List.mem_cons_self _ _
      · exact List.mem_cons_of_mem _ (hm hmo')

theorem processEntries_inv {cfg : Config} {path : String} :
    ∀ {es : List Entry} {s : VState} {ex : List Task}, DedupInv s ex →
      DedupInv (processEntries cfg path es s) ex := by
  intro es
  induction es with
  | nil => intro s ex h; exact h
  | cons e rest ih =>
    intro s ex h
    rw [processEntries]
    split
    · exact h
    · apply ih
      split
      · exact enqueueVerifyDirectory_inv h
      · exact enqueueVerifyObject_inv h

theorem reportError_inv {cfg : Config} {path : String} {k : FailureKind}
    {s : VState} {ex : List Task} (h : DedupInv s ex) :
    DedupInv (reportError cfg path k s).2 ex := by
  rw [reportError_snd]
  intro o
  obtain ⟨hc, hm⟩ := h o
  exact ⟨hc, hm⟩

theorem runTask_inv {env : Env} {cfg : Config} {t : Task} {s : VState}
    {ex : List Task} (h : DedupInv s ex) :
    DedupInv (runTask env cfg t s) ex := by
  cases t with
  | dir oid path =>
    rw [runTask]
    unfold doVerifyDirectory
    cases hd : env.readdir oid with
    | error e => exact reportError_inv h
    | ok entries => exact processEntries_inv h
  | obj oid path el =>
    rw [runTask, doVerifyObject_eq]
    intro o
    obtain ⟨hc, hm⟩ := h o
    exact ⟨hc, hm⟩

theorem DedupInv_pop {s : VState} {t : Task} {rest ex : List Task}
    (hq : s.queue = t :: rest) (h : DedupInv s ex) :
    DedupInv { s with queue := rest } (ex ++ [t]) := by
  intro o
  obtain ⟨hc, hm⟩ := h o
  have hcnt : (enqueuedOids { s with queue := rest } (ex ++ [t])).count o =
      (enqueuedOids s ex).count o := by
    simp [enqueuedOids, hq, List.count_append, List.count_cons]
    omega
  refine ⟨by rw [hcnt]; exact hc, fun hx => hm ?_⟩
  have hpos : 0 < (enqueuedOids s ex).count o := by
    rw [← hcnt]
    exact List.count_pos_iff.mpr hx
  exact List.count_pos_iff.mp hpos

theorem processQueue_inv (env : Env) (cfg : Config) :
    ∀ (fuel : Nat) (s : VState) (ex : List Task), DedupInv s ex →
      DedupInv (processQueue env cfg fuel s ex).1 (processQueue env cfg fuel s ex).2 := by
  intro fuel
  induction fuel with
  | zero => intro s ex h; exact h
  | succ n ih =>
    intro s ex h
    rw [processQueue]
    cases hq : s.queue with
    | nil => exact h
    | cons t rest => exact ih _ _ (runTask_inv (DedupInv_pop hq h))

theorem enqueueManifestRoots_inv :
    ∀ (ms : List Manifest) {s : VState} {ex : List Task}, DedupInv s ex →
      DedupInv (enqueueManifestRoots ms s) ex := by
  intro ms
  induction ms with
  | nil => intro s ex h; exact h
  | cons man rest ih =>
    intro s ex h
    rw [enqueueManifestRoots]
    apply ih
    cases man.rootEntry with
    | none => exact h
    | some re =>
      simp only
      split
      · exact enqueueVerifyDirectory_inv h
      · exact enqueueVerifyObject_inv h

theorem enqueueDirIDs_inv (env : Env) :
    ∀ (l : List String) {s : VState} {ex : List Task}, DedupInv s ex →
      DedupInv (enqueueDirIDs env l s).2 ex := by
  intro l
  induction l with
  | nil => intro s ex h; exact h
  | cons oidStr rest ih =>
    intro s ex h
    rw [enqueueDirIDs]
    cases env.parseObjectID oidStr with
    | error e => exact h
    | ok oid => exact ih (enqueueVerifyDirectory_inv h)

theorem enqueueFileIDs_inv (env : Env) :
    ∀ (l : List String) {s : VState} {ex : List Task}, DedupInv s ex →
      DedupInv (enqueueFileIDs env l s).2 ex := by
  intro l
  induction l with
  | nil => intro s ex h; exact h
  | cons oidStr rest ih =>
    intro s ex h
    rw [enqueueFileIDs]
    cases env.parseObjectID oidStr with
    | error e => exact h
    | ok oid => exact ih (enqueueVerifyObject_inv h)

theorem enqueueRootsToVerify_inv (env : Env) (cfg : Config) {s : VState}
    {ex : List Task} (h : DedupInv s ex) :
    DedupInv (enqueueRootsToVerify env cfg s).2 ex := by
  unfold enqueueRootsToVerify
  cases loadSourceManifests env cfg with
  | error e => exact h
  | ok manifests =>
    simp only
    have h1 := enqueueManifestRoots_inv manifests h
    cases hd : enqueueDirIDs env cfg.dirObjectIDs (enqueueManifestRoots manifests s) with
    | mk oe s2 =>
      cases oe with
      | none =>
        simp only
        have h2 := enqueueDirIDs_inv env cfg.dirObjectIDs h1
        rw [hd] at h2
        exact enqueueFileIDs_inv env cfg.fileObjectIDs h2
      | some e =>
        simp only
        have h2 := enqueueDirIDs_inv env cfg.dirObjectIDs h1
        rw [hd] at h2
        exact h2

/-! ### The seeding phase never touches the failure list -/

theorem enqueueManifestRoots_errors :
    ∀ (ms : List Manifest) (s : VState),
      (enqueueManifestRoots ms s).errors = s.errors := by
  intro ms
  induction ms with
  | nil => intro s; rfl
  | cons man rest ih =>
    intro s
    rw [enqueueManifestRoots, ih]
    cases man.rootEntry with
    | none => rfl
    | some re =>
      simp only
      split
      · rw [enqueueVerifyDirectory_errors]
      · rw [enqueueVerifyObject_errors]

theorem enqueueDirIDs_errors (env : Env) :
    ∀ (l : List String) (s : VState),
      (enqueueDirIDs env l s).2.errors = s.errors := by
  intro l
  induction l with
  | nil => intro s; rfl
  | cons oidStr rest ih =>
    intro s
    rw [enqueueDirIDs]
    cases env.parseObjectID oidStr with
    | error e => rfl
    | ok oid => rw [ih, enqueueVerifyDirectory_errors]

theorem enqueueFileIDs_errors (env : Env) :
    ∀ (l : List String) (s : VState),
      (enqueueFileIDs env l s).2.errors = s.errors := by
  intro l
  induction l with
  | nil => intro s; rfl
  | cons oidStr rest ih =>
    intro s
    rw [enqueueFileIDs]
    cases env.parseObjectID oidStr with
    | error e => rfl
    | ok oid => rw [ih, enqueueVerifyObject_errors]

theorem enqueueRootsToVerify_errors (env : Env) (cfg : Config) (s : VState) :
    (enqueueRootsToVerify env cfg s).2.errors = s.errors := by
  unfold enqueueRootsToVerify
  cases loadSourceManifests env cfg with
  | error e => rfl
  | ok manifests =>
    simp only
    cases hd : enqueueDirIDs env cfg.dirObjectIDs (enqueueManifestRoots manifests s) with
    | mk oe s2 =>
      have h2 : s2.errors = s.errors := by
        have := enqueueDirIDs_errors env cfg.dirObjectIDs (enqueueManifestRoots manifests s)
        rw [hd] at this
        rw [this, enqueueManifestRoots_errors]
      cases oe with
      | none => simp only; rw [enqueueFileIDs_errors, h2]
      | some e => simpa using h2

/-! ### Which tasks each phase can enqueue -/

theorem mem_enqueueVerifyDirectory_queue {t : Task} {oid : Nat} {path : String}
    {s : VState} (h : t ∈ (enqueueVerifyDirectory oid path s).queue) :
    t ∈ s.queue ∨ t = Task.dir oid path := by
  rw [enqueueVerifyDirectory_eq] at h
  split at h
  · exact Or.inl h
  · rcases List.mem_cons.mp h with rfl | h'
    · exact Or.inr rfl
    · exact Or.inl h'

theorem mem_enqueueVerifyObject_queue {t : Task} {oid : Nat} {path : String}
    {el : Int} {s : VState} (h : t ∈ (enqueueVerifyObject oid path el s).queue) :
    t ∈ s.queue ∨ t = Task.obj oid path el := by
  rw [enqueueVerifyObject_eq] at h
  split at h
  · exact Or.inl h
  · rcases List.mem_append.mp h with h' | h'
    · exact Or.inl h'
    · exact Or.inr (List.mem_singleton.mp h')

theorem mem_processEntries_queue {cfg : Config} {path : String} :
    ∀ {es : List Entry} {s : VState} {t : Task},
      t ∈ (processEntries cfg path es s).queue →
      t ∈ s.queue ∨ ∃ e ∈ es,
        (e.isDir = true ∧ t = Task.dir e.objectID (path ++ "/" ++ e.name)) ∨
        (e.isDir = false ∧ t = Task.obj e.objectID (path ++ "/" ++ e.name) e.fileSize) := by
  intro es
  induction es with
  | nil => intro s t h; exact Or.inl h
  | cons e rest ih =>
    intro s t h
    rw [processEntries] at h
    split at h
    · exact Or.inl h
    · rcases ih h with h' | ⟨e', he', hcase⟩
      · split at h'
        · rename_i hdir
          rcases mem_enqueueVerifyDirectory_queue h' with h'' | rfl
          · exact Or.inl h''
          · exact Or.inr ⟨e, List.mem_cons_self e rest, Or.inl ⟨hdir, rfl⟩⟩
        · rename_i hdir
          rcases mem_enqueueVerifyObject_queue h' with h'' | rfl
          · exact Or.inl h''
          · exact Or.inr ⟨e, List.mem_cons_self e rest,
              Or.inr ⟨Bool.not_eq_true _ ▸ Bool.of_not_eq_true hdir, rfl⟩⟩
      · exact Or.inr ⟨e', List.mem_cons_of_mem e he', hcase⟩

theorem mem_enqueueManifestRoots_queue :
    ∀ {ms : List Manifest} {s : VState} {t : Task},
      t ∈ (enqueueManifestRoots ms s).queue →
      t ∈ s.queue ∨ (∃ oid p, t = Task.dir oid p) ∨ ∃ oid p, t = Task.obj oid p (-1) := by
  intro ms
  induction ms with
  | nil => intro s t h; exact Or.inl h
  | cons man rest ih =>
    intro s t h
    rw [enqueueManifestRoots] at h
    rcases ih h with h' | hcase
    · cases hre : man.rootEntry with
      | none => rw [hre] at h'; exact Or.inl h'
      | some re =>
        rw [hre] at h'
        simp only at h'
        split at h'
        · rcases mem_enqueueVerifyDirectory_queue h' with h'' | rfl
          · exact Or.inl h''
          · exact Or.inr (Or.inl ⟨_, _, rfl⟩)
        · rcases mem_enqueueVerifyObject_queue h' with h'' | rfl
          · exact Or.inl h''
          · exact Or.inr (Or.inr ⟨_, _, rfl⟩)
    · exact Or.inr hcase

theorem mem_enqueueDirIDs_queue (env : Env) :
    ∀ {l : List String} {s : VState} {t : Task},
      t ∈ (enqueueDirIDs env l s).2.queue →
      t ∈ s.queue ∨ ∃ oid p, t = Task.dir oid p := by
  intro l
  induction l with
  | nil => intro s t h; exact Or.inl h
  | cons oidStr rest ih =>
    intro s t h
    rw [enqueueDirIDs] at h
    split at h
    · exact Or.inl h
    · rcases ih h with h' | hcase
      · rcases mem_enqueueVerifyDirectory_queue h' with h'' | rfl
        · exact Or.inl h''
        · exact Or.inr ⟨_, _, rfl⟩
      · exact Or.inr hcase

theorem mem_enqueueFileIDs_queue (env : Env) :
    ∀ {l : List String} {s : VState} {t : Task},
      t ∈ (enqueueFileIDs env l s).2.queue →
      t ∈ s.queue ∨ ∃ oid p, t = Task.obj oid p (-1) := by
  intro l
  induction l with
  | nil => intro s t h; exact Or.inl h
  | cons oidStr rest ih =>
    intro s t h
    rw [enqueueFileIDs] at h
    split at h
    · exact Or.inl h
    · rcases ih h with h' | hcase
      · rcases mem_enqueueVerifyObject_queue h' with h'' | rfl
        · exact Or.inl h''
        · exact Or.inr ⟨_, _, rfl⟩
      · exact Or.inr hcase

theorem mem_enqueueRootsToVerify_queue {env : Env} {cfg : Config} {t : Task}
    (h : t ∈ (enqueueRootsToVerify env cfg initialState).2.queue) :
    (∃ oid p, t = Task.dir oid p) ∨ ∃ oid p, t = Task.obj oid p (-1) := by
  unfold enqueueRootsToVerify at h
  cases hm : loadSourceManifests env cfg with
  | error e => rw [hm] at h; exact absurd h (by simp [initialState])
  | ok manifests =>
    rw [hm] at h
    simp only at h
    cases hd : enqueueDirIDs env cfg.dirObjectIDs (enqueueManifestRoots manifests initialState) with
    | mk oe s2 =>
      rw [hd] at h
      have hs2 : ∀ t' : Task, t' ∈ s2.queue →
          (∃ oid p, t' = Task.dir oid p) ∨ ∃ oid p, t' = Task.obj oid p (-1) := by
        intro t' ht'
        have : t' ∈ (enqueueDirIDs env cfg.dirObjectIDs (enqueueManifestRoots manifests initialState)).2.queue := by
          rw [hd]; exact ht'
        rcases mem_enqueueDirIDs_queue env this with h1 | h1
        · rcases mem_enqueueManifestRoots_queue h1 with h2 | h2
          · exact absurd h2 (by simp [initialState])
          · exact h2
        · exact Or.inl h1
      cases oe with
      | some e => exact hs2 t h
      | none =>
        simp only at h
        rcases mem_enqueueFileIDs_queue env h with h1 | h1
        · exact hs2 t h1
        · exact Or.inr h1

/-! ### Variant in which `reportError` returns no value (claim C10) -/

namespace DropResult

/-- Modelled from the spec: the variant program in which `reportError`
returns no value — it only appends the failure record.  Every other
definition below repeats the corresponding source function with this
variant substituted at each `reportError` call site. -/
def reportError (cfg : Config) (path : String) (k : FailureKind)
    (s : VState) : VState :=
  { s with errors := s.errors ++ [⟨path, k⟩] }

/-- Variant `doVerifyDirectory` of the program with no report result. -/
def doVerifyDirectory (env : Env) (cfg : Config) (oid : Nat) (path : String)
    (s : VState) : VState :=
  match env.readdir oid with
  | .error e => reportError cfg path (.readDir oid e) s
  | .ok entries => processEntries cfg path entries s

/-- Variant `doVerifyObject` of the program with no report result. -/
def doVerifyObject (env : Env) (cfg : Config) (oid : Nat) (path : String)
    (expectedLength : Int) (s : VState) : VState :=
  let length := (env.verifyObject oid).1
  let s1 :=
    match (env.verifyObject oid).2 with
    | some e => reportError cfg path (.verify oid e) s
    | none => s
  let s2 :=
    if expectedLength ≥ 0 ∧ length ≠ expectedLength then
      reportError cfg path (.invalidLength oid length expectedLength) s1
    else s1
  if ((env.randDraw oid % 100 : Nat) : Int) < cfg.filesPercent then
    match env.readObject oid with
    | some e => reportError cfg path (.readObject oid e) s2
    | none => s2
  else s2

/-- Task dispatch of the variant program. -/
def runTask (env : Env) (cfg : Config) : Task → VState → VState
  | .dir oid path, s => doVerifyDirectory env cfg oid path s
  | .obj oid path el, s => doVerifyObject env cfg oid path el s

/-- Queue processing of the variant program. -/
def processQueue (env : Env) (cfg : Config) :
    Nat → VState → List Task → VState × List Task
  | 0, s, ex => (s, ex)
  | fuel + 1, s, ex =>
    match s.queue with
    | [] => (s, ex)
    | t :: rest =>
      processQueue env cfg fuel (runTask env cfg t { s with queue := rest }) (ex ++ [t])

/-- The whole run of the variant program. -/
def runVerifyCommand (env : Env) (cfg : Config) (fuel : Nat) :
    RunResult × VState × List Task :=
  match enqueueRootsToVerify env cfg initialState with
  | (some e, s) => (.rootFailure e, s, [])
  | (none, s) =>
    let (s', ex) := processQueue env cfg fuel s []
    if s'.errors.length = 0 then (.success, s', ex)
    else (.aggregate s'.errors.length, s', ex)

end DropResult

theorem DropResult.reportError_eq (cfg : Config) (path : String)
    (k : FailureKind) (s : VState) :
    DropResult.reportError cfg path k s = (ObjectVerify.reportError cfg path k s).2 := rfl

theorem DropResult.doVerifyDirectory_eq (env : Env) (cfg : Config) (oid : Nat)
    (path : String) (s : VState) :
    DropResult.doVerifyDirectory env cfg oid path s =
      ObjectVerify.doVerifyDirectory env cfg oid path s := by
  unfold DropResult.doVerifyDirectory ObjectVerify.doVerifyDirectory
  cases env.readdir oid <;> rfl

theorem DropResult.doVerifyObject_same (env : Env) (cfg : Config) (oid : Nat)
    (path : String) (el : Int) (s : VState) :
    DropResult.doVerifyObject env cfg oid path el s =
      ObjectVerify.doVerifyObject env cfg oid path el s := by
  unfold DropResult.doVerifyObject ObjectVerify.doVerifyObject
  cases (env.verifyObject oid).2 <;> cases env.readObject oid <;> rfl

theorem DropResult.runTask_eq (env : Env) (cfg : Config) (t : Task) (s : VState) :
    DropResult.runTask env cfg t s = ObjectVerify.runTask env cfg t s := by
  cases t with
  | dir oid path => exact DropResult.doVerifyDirectory_eq env cfg oid path s
  | obj oid path el => exact DropResult.doVerifyObject_same env cfg oid path el s

theorem DropResult.processQueue_eq (env : Env) (cfg : Config) :
    ∀ (fuel : Nat) (s : VState) (ex : List Task),
      DropResult.processQueue env cfg fuel s ex =
        ObjectVerify.processQueue env cfg fuel s ex := by
  intro fuel
  induction fuel with
  | zero => intro s ex; rfl
  | succ n ih =>
    intro s ex
    rw [DropResult.processQueue, ObjectVerify.processQueue]
    cases s.queue with
    | nil => rfl
    | cons t rest => simp only [DropResult.runTask_eq, ih]

/-! ### Concrete environments used as witnesses -/

/-- A small repository: directory 1 holds two files sharing object 10 and a
subdirectory 2 that holds object 10 again; every other identifier is an
unreadable directory; object 10 verifies cleanly, everything else fails. -/
def witnessEnv : Env where
  readdir := fun oid =>
    if oid = 1 then .ok [⟨"a", false, 5, 10⟩, ⟨"sub", true, 0, 2⟩, ⟨"a2", false, 5, 10⟩]
    else if oid = 2 then .ok [⟨"b", false, 5, 10⟩]
    else .error "unreadable"
  verifyObject := fun oid => if oid = 10 then (5, none) else (0, some "broken")
  readObject := fun _ => none
  randDraw := fun _ => 50
  parseSourceInfo := fun st => .ok st
  listSnapshotManifests := fun _ => []
  loadSnapshots := fun _ => .ok []
  parseObjectID := fun st => if st = "d1" then .ok 1 else .error ("bad " ++ st)

/-- Configuration verifying explicit directory id `d1` with unlimited
error budget and no sampling. -/
def witnessCfg : Config := ⟨0, 0, false, [], ["d1"], []⟩

/-- An environment in which every object fails verification; identifiers
`a` … `e` parse to objects 1 … 5. -/
def failEnv : Env where
  readdir := fun _ => .error "unreadable"
  verifyObject := fun oid => (0, some ("bad " ++ toString oid))
  readObject := fun _ => none
  randDraw := fun _ => 99
  parseSourceInfo := fun st => .ok st
  listSnapshotManifests := fun _ => []
  loadSnapshots := fun _ => .ok []
  parseObjectID := fun st =>
    if st = "a" then .ok 1 else if st = "b" then .ok 2 else if st = "c" then .ok 3
    else if st = "d" then .ok 4 else if st = "e" then .ok 5
    else .error ("bad " ++ st)

/-- Threshold 0 (unlimited), verifying five explicit file identifiers. -/
def failCfg : Config := ⟨0, 0, false, [], [], ["a", "b", "c", "d", "e"]⟩

/-- Configuration naming an explicit directory identifier that fails to
parse. -/
def badParseCfg : Config := ⟨0, 0, false, [], ["zz"], []⟩

/-! ### Claim theorems -/

/-- C2 counterexample: with configured threshold 0, `reportError` does not
return `false` — `len(v.errors) >= 0` always holds after the append, so it
returns `true`. -/
theorem reportError_threshold_zero_counterexample :
    ¬ ((reportError ⟨0, 0, false, [], [], []⟩ "p" (.verify 1 "x") initialState).1 = false) := by
  decide

/-- C2 (amended): `reportError` appends exactly one failure record,
touches nothing else, and returns whether the updated count has reached
the configured threshold; since the updated count is always nonnegative,
with threshold 0 it always returns `true` (not `false`). -/
theorem reportError_appends_and_reports_threshold :
    (∀ (cfg : Config) (path : String) (k : FailureKind) (s : VState),
        (reportError cfg path k s).2.errors = s.errors ++ [⟨path, k⟩] ∧
        (reportError cfg path k s).2.seen = s.seen ∧
        (reportError cfg path k s).2.queue = s.queue ∧
        ((reportError cfg path k s).1 = true ↔
          (s.errors.length : Int) + 1 ≥ cfg.maxErrors)) ∧
    (∀ (cfg : Config) (path : String) (k : FailureKind) (s : VState),
        (reportError { cfg with maxErrors := 0 } path k s).1 = true) := by
  constructor
  · intro cfg path k s
    refine ⟨rfl, rfl, rfl, ?_⟩
    simp [reportError]
  · intro cfg path k s
    simp [reportError]
    omega

/-- C7: when listing a directory fails, the directory task appends exactly
one failure record labelled with the directory path and leaves the queue
and the visited-set untouched — no children are enqueued. -/
theorem listing_failure_reports_once (env : Env) (cfg : Config) (oid : Nat)
    (path : String) (e : String) (s : VState) (h : env.readdir oid = .error e) :
    doVerifyDirectory env cfg oid path s =
      { s with errors := s.errors ++ [⟨path, FailureKind.readDir oid e⟩] } :=
  doVerifyDirectory_listing_error h

theorem listing_failure_reports_once_witness :
    doVerifyDirectory witnessEnv witnessCfg 3 "p" initialState =
      { initialState with errors := [⟨"p", FailureKind.readDir 3 "unreadable"⟩] } :=
  listing_failure_reports_once witnessEnv witnessCfg 3 "p" "unreadable" initialState rfl

/-- C8: a root-resolution failure makes the run return that error at once:
the work queue is never processed (no task is ever executed) and the
failure list stays empty. -/
theorem root_resolution_failure_is_fatal (env : Env) (cfg : Config) (fuel : Nat)
    (e : String) (s : VState)
    (h : enqueueRootsToVerify env cfg initialState = (some e, s)) :
    runVerifyCommand env cfg fuel = (RunResult.rootFailure e, s, []) ∧
      s.errors = [] := by
  constructor
  · unfold runVerifyCommand
    rw [h]
  · have he := enqueueRootsToVerify_errors env cfg initialState
    rw [h] at he
    exact he

theorem root_resolution_failure_is_fatal_witness :
    runVerifyCommand witnessEnv badParseCfg 20 =
      (RunResult.rootFailure "bad zz", initialState, []) ∧
      (initialState : VState).errors = [] :=
  root_resolution_failure_is_fatal witnessEnv badParseCfg 20 "bad zz" initialState rfl

/-- C10: the boolean returned by `reportError` is discarded at every call
site, so the program is observably identical to the variant in which
`reportError` returns no value. -/
theorem reportError_result_discarded (env : Env) (cfg : Config) (fuel : Nat) :
    DropResult.runVerifyCommand env cfg fuel = runVerifyCommand env cfg fuel := by
  unfold DropResult.runVerifyCommand runVerifyCommand
  cases enqueueRootsToVerify env cfg initialState with
  | mk oe s =>
    cases oe with
    | some e => rfl
    | none => simp only [DropResult.processQueue_eq]

/-- C5: within one object task the three checks are independent: the
failure records appended by `doVerifyObject` are exactly the concatenation
of (1) one verification-failure record when `VerifyObject` errored, (2) one
length-mismatch record when an expected length was supplied and differs,
and (3) one deep-read record when the sampling draw selects the object and
the full read fails — each component's presence depends only on its own
check, so any subset may fire, the sampled deep read is attempted whether
or not the shallow checks failed, and no component suppresses or
duplicates another. -/
theorem object_checks_independent (env : Env) (cfg : Config) (oid : Nat)
    (path : String) (el : Int) (s : VState) :
    (doVerifyObject env cfg oid path el s).errors =
      s.errors ++
        ((match (env.verifyObject oid).2 with
          | some e => [⟨path, FailureKind.verify oid e⟩]
          | none => []) ++
         ((if el ≥ 0 ∧ (env.verifyObject oid).1 ≠ el then
             [⟨path, FailureKind.invalidLength oid (env.verifyObject oid).1 el⟩]
           else []) ++
          (if ((env.randDraw oid % 100 : Nat) : Int) < cfg.filesPercent then
             match env.readObject oid with
             | some e => [⟨path, FailureKind.readObject oid e⟩]
             | none => []
           else []))) := by
  rw [doVerifyObject_eq]
  rfl

/-- C9 counterexample: at elapsed 1.5 s with 10 enqueued and 9 completed
objects, the claim's conditions hold — the formula
`elapsed / (completed/enqueued) - elapsed = 1/6 s` is positive — yet the
code shows no ETA, because `time.Duration(predictedSeconds) * time.Second`
truncates the predicted 1.666… s down to 1 s, making the computed
remaining duration negative. -/
theorem progress_eta_counterexample :
    specClaimedETACondition 1500000000 10 9 ∧
      progressShowsETA 1500000000 10 9 = false := by
  refine ⟨⟨by norm_num, by norm_num, by norm_num, ?_⟩, by decide⟩
  norm_num [specClaimedRemaining]

/-- C9 (amended): the ETA is shown exactly when elapsed time exceeds one
second, both counters are positive, and the remaining duration computed
with the predicted total duration truncated to whole seconds —
`⌊elapsedSeconds / (completed/enqueued)⌋ · 1 s − elapsed` — is positive. -/
theorem progress_eta_characterization (elapsedNs enqueued completed : Int) :
    progressShowsETA elapsedNs enqueued completed = true ↔
      (elapsedNs > 1000000000 ∧ enqueued > 0 ∧ completed > 0 ∧
        ⌊((elapsedNs : ℚ) / 1000000000) / ((completed : ℚ) / (enqueued : ℚ))⌋
            * 1000000000 - elapsedNs > 0) := by
  unfold progressShowsETA
  by_cases hg : elapsedNs > 1000000000 ∧ enqueued > 0 ∧ completed > 0
  · obtain ⟨h1, h2, h3⟩ := hg
    have hq : (0 : ℤ) < 1000000000 * completed := by positivity
    have hqn : (((1000000000 * completed : ℤ).toNat : ℤ)) = 1000000000 * completed :=
      Int.toNat_of_nonneg hq.le
    have hfac : ((elapsedNs : ℚ) / 1000000000) / ((completed : ℚ) / (enqueued : ℚ)) =
        ((elapsedNs * enqueued : ℤ) : ℚ) / ((1000000000 * completed : ℤ) : ℚ) := by
      have hc : (completed : ℚ) ≠ 0 := by positivity
      have he : (enqueued : ℚ) ≠ 0 := by positivity
      push_cast
      field_simp
    have hcast : (((1000000000 * completed : ℤ).toNat : ℕ) : ℚ) =
        ((1000000000 * completed : ℤ) : ℚ) := by
      exact_mod_cast congrArg (fun z : ℤ => (z : ℚ)) hqn
    have hfl : ⌊((elapsedNs : ℚ) / 1000000000) / ((completed : ℚ) / (enqueued : ℚ))⌋ =
        elapsedNs * enqueued / (1000000000 * completed) := by
      rw [hfac, ← hcast, Rat.floor_intCast_div_natCast, hqn]
    rw [if_pos ⟨h1, h2, h3⟩]
    simp only [decide_eq_true_eq, hfl]
    tauto
  · rw [if_neg hg]
    simp only [Bool.false_eq_true, false_iff]
    rintro ⟨ha, hb, hc, _⟩
    exact hg ⟨ha, hb, hc⟩

theorem lengthMismatch_mem_objNewErrors (env : Env) (cfg : Config) (oid : Nat)
    (path : String) (el : Int) :
    (∃ f ∈ objNewErrors env cfg oid path el, f.kind.isLengthMismatch = true) ↔
      (el ≥ 0 ∧ (env.verifyObject oid).1 ≠ el) := by
  constructor
  · rintro ⟨f, hf, hk⟩
    unfold objNewErrors at hf
    rcases List.mem_append.mp hf with h1 | h23
    · exfalso
      cases hv : (env.verifyObject oid).2 <;> rw [hv] at h1
      · simp at h1
      · simp at h1
        subst h1
        simp [FailureKind.isLengthMismatch] at hk
    · rcases List.mem_append.mp h23 with h2 | h3
      · by_cases hc : el ≥ 0 ∧ (env.verifyObject oid).1 ≠ el
        · exact hc
        · rw [if_neg hc] at h2
          simp at h2
      · exfalso
        split at h3
        · cases hr : env.readObject oid <;> rw [hr] at h3
          · simp at h3
          · simp at h3
            subst h3
            simp [FailureKind.isLengthMismatch] at hk
        · simp at h3
  · rintro ⟨h0, hne⟩
    refine ⟨⟨path, .invalidLength oid (env.verifyObject oid).1 el⟩, ?_, rfl⟩
    unfold objNewErrors
    refine List.mem_append.mpr (Or.inr (List.mem_append.mpr (Or.inl ?_)))
    rw [if_pos ⟨h0, hne⟩]
    exact List.mem_singleton.mpr rfl

/-- C1: `shouldEnqueue` returns `true` and inserts on the first call for an
identifier, returns `false` and changes nothing once the identifier is in
the visited-set, the visited-set only grows while tasks run (so every
subsequent call returns `false`), and consequently over a whole run every
identifier occurs at most once among all tasks ever placed on the work
queue — hence is passed to the verification primitive at most once. -/
theorem dedup_enqueued_at_most_once :
    (∀ (s : VState) (oid : Nat), oid ∉ s.seen →
        shouldEnqueue oid s = (true, { s with seen := oid :: s.seen })) ∧
    (∀ (s : VState) (oid : Nat), oid ∈ s.seen → shouldEnqueue oid s = (false, s)) ∧
    (∀ (env : Env) (cfg : Config) (t : Task) (s : VState) (oid : Nat),
        oid ∈ s.seen → oid ∈ (runTask env cfg t s).seen) ∧
    (∀ (env : Env) (cfg : Config) (fuel : Nat) (oid : Nat),
        (enqueuedOids (runVerifyCommand env cfg fuel).2.1
            (runVerifyCommand env cfg fuel).2.2).count oid ≤ 1) := by
  refine ⟨fun s oid h => shouldEnqueue_of_not_seen h,
          fun s oid h => shouldEnqueue_of_seen h,
          fun env cfg t s oid h => runTask_seen_mono h, ?_⟩
  intro env cfg fuel oid
  unfold runVerifyCommand
  cases hr : enqueueRootsToVerify env cfg initialState with
  | mk oe s =>
    have hinv : DedupInv s [] := by
      have h0 := @enqueueRootsToVerify_inv env cfg initialState [] DedupInv_initial
      rw [hr] at h0
      exact h0
    cases oe with
    | some e => exact (hinv oid).1
    | none =>
      have hq := processQueue_inv env cfg fuel s [] hinv
      simp only
      split
      · exact (hq oid).1
      · exact (hq oid).1

theorem dedup_enqueued_at_most_once_witness :
    shouldEnqueue 7 initialState =
        (true, { initialState with seen := 7 :: initialState.seen }) ∧
    shouldEnqueue 7 { initialState with seen := [7] } =
        (false, { initialState with seen := [7] }) ∧
    (7 : Nat) ∈ (runTask witnessEnv witnessCfg (Task.dir 3 "p")
        { initialState with seen := [7] }).seen := by
  obtain ⟨h1, h2, h3, _⟩ := dedup_enqueued_at_most_once
  exact ⟨h1 initialState 7 (by decide), h2 _ 7 (by decide),
         h3 witnessEnv witnessCfg _ _ 7 (by decide)⟩

/-- C3: once the failure count has reached a nonzero threshold,
`tooManyErrors` reports `true`, it stays `true` while further tasks run,
and a directory task's child loop — which polls it before each child in
listing order — returns without touching the state, enqueueing no further
children; with threshold 0, `tooManyErrors` is constantly `false` and the
child loop is identical to the checkless loop that processes every entry. -/
theorem error_budget_stops_directory_expansion :
    (∀ (cfg : Config) (path : String) (e : Entry) (rest : List Entry) (s : VState),
        tooManyErrors cfg s = true → processEntries cfg path (e :: rest) s = s) ∧
    (∀ (cfg : Config) (s : VState), cfg.maxErrors ≠ 0 →
        (s.errors.length : Int) ≥ cfg.maxErrors → tooManyErrors cfg s = true) ∧
    (∀ (env : Env) (cfg : Config) (t : Task) (s : VState),
        tooManyErrors cfg s = true → tooManyErrors cfg (runTask env cfg t s) = true) ∧
    (∀ (cfg : Config) (s : VState), tooManyErrors { cfg with maxErrors := 0 } s = false) ∧
    (∀ (cfg : Config) (path : String) (es : List Entry) (s : VState),
        processEntries { cfg with maxErrors := 0 } path es s =
          processEntriesAll { cfg with maxErrors := 0 } path es s) := by
  refine ⟨?_, ?_, ?_, ?_, ?_⟩
  · intro cfg path e rest s h
    exact processEntries_stop h
  · intro cfg s hnz h
    unfold tooManyErrors
    rw [if_neg hnz]
    exact decide_eq_true h
  · intro env cfg t s h
    exact tooManyErrors_mono (runTask_errors env cfg t s) h
  · intro cfg s
    exact tooManyErrors_zero cfg s
  · intro cfg path es s
    exact processEntries_zero cfg path es s

theorem error_budget_stops_directory_expansion_witness :
    tooManyErrors ⟨1, 0, false, [], [], []⟩ ⟨[], [⟨"x", FailureKind.verify 7 "m"⟩], []⟩ = true ∧
    processEntries ⟨1, 0, false, [], [], []⟩ "p" [⟨"a", false, 5, 10⟩]
        ⟨[], [⟨"x", FailureKind.verify 7 "m"⟩], []⟩ =
      ⟨[], [⟨"x", FailureKind.verify 7 "m"⟩], []⟩ ∧
    tooManyErrors ⟨1, 0, false, [], [], []⟩
        (runTask witnessEnv ⟨1, 0, false, [], [], []⟩ (Task.obj 10 "p" (-1))
          ⟨[], [⟨"x", FailureKind.verify 7 "m"⟩], []⟩) = true := by
  obtain ⟨hstop, hreach, hmono, _, _⟩ := error_budget_stops_directory_expansion
  have ht : tooManyErrors (⟨1, 0, false, [], [], []⟩ : Config)
      ⟨[], [⟨"x", FailureKind.verify 7 "m"⟩], []⟩ = true :=
    hreach _ _ (by decide) (by decide)
  exact ⟨ht, hstop _ _ _ _ _ ht, hmono witnessEnv _ _ _ ht⟩

/-- C4: every task seeded from snapshot roots or explicit identifiers is a
directory task or an object task with sentinel expected length `-1`; an
object task run with the sentinel never appends a length-mismatch failure,
whatever length verification returned; every object task enqueued from a
directory listing carries that entry's recorded size; and for the expected
lengths the program creates (`-1` or a nonnegative listing size) the
length-mismatch check fires exactly when the expected length is not the
sentinel and the actual length differs. -/
theorem sentinel_expected_length :
    (∀ (env : Env) (cfg : Config) (t : Task),
        t ∈ (enqueueRootsToVerify env cfg initialState).2.queue →
        (∃ oid p, t = Task.dir oid p) ∨ ∃ oid p, t = Task.obj oid p (-1)) ∧
    (∀ (env : Env) (cfg : Config) (oid : Nat) (path : String) (s : VState),
        ∀ f ∈ (doVerifyObject env cfg oid path (-1) s).errors,
          f ∈ s.errors ∨ f.kind.isLengthMismatch = false) ∧
    (∀ (cfg : Config) (path : String) (es : List Entry) (s : VState) (t : Task),
        t ∈ (processEntries cfg path es s).queue →
        t ∈ s.queue ∨ ∃ e ∈ es,
          (e.isDir = true ∧ t = Task.dir e.objectID (path ++ "/" ++ e.name)) ∨
          (e.isDir = false ∧ t = Task.obj e.objectID (path ++ "/" ++ e.name) e.fileSize)) ∧
    (∀ (env : Env) (cfg : Config) (oid : Nat) (path : String) (el : Int),
        el = -1 ∨ el ≥ 0 →
        ((∃ f ∈ objNewErrors env cfg oid path el, f.kind.isLengthMismatch = true) ↔
          (el ≠ -1 ∧ (env.verifyObject oid).1 ≠ el))) := by
  refine ⟨?_, ?_, ?_, ?_⟩
  · intro env cfg t ht
    exact mem_enqueueRootsToVerify_queue ht
  · intro env cfg oid path s f hf
    rw [doVerifyObject_eq] at hf
    rcases List.mem_append.mp hf with h | h
    · exact Or.inl h
    · right
      by_contra hk
      have hk' : f.kind.isLengthMismatch = true := by
        revert hk
        cases f.kind.isLengthMismatch <;> simp
      have hc := (lengthMismatch_mem_objNewErrors env cfg oid path (-1)).mp ⟨f, h, hk'⟩
      exact absurd hc.1 (by norm_num)
  · intro cfg path es s t ht
    exact mem_processEntries_queue ht
  · intro env cfg oid path el hel
    rw [lengthMismatch_mem_objNewErrors]
    rcases hel with rfl | h0
    · constructor
      · rintro ⟨h, _⟩
        exact absurd h (by norm_num)
      · rintro ⟨h, _⟩
        exact absurd rfl h
    · constructor
      · rintro ⟨_, hne⟩
        exact ⟨by omega, hne⟩
      · rintro ⟨_, hne⟩
        exact ⟨h0, hne⟩

theorem sentinel_expected_length_witness :
    ((∃ oid p, (Task.dir 1 "d1" : Task) = Task.dir oid p) ∨
      (∃ oid p, (Task.dir 1 "d1" : Task) = Task.obj oid p (-1))) ∧
    ((⟨"q", FailureKind.verify 4 "broken"⟩ : Failure) ∈ initialState.errors ∨
      (FailureKind.verify 4 "broken").isLengthMismatch = false) ∧
    ((Task.obj 10 "p/a" 5 : Task) ∈ initialState.queue ∨
      ∃ e ∈ [(⟨"a", false, 5, 10⟩ : Entry)],
        (e.isDir = true ∧ (Task.obj 10 "p/a" 5 : Task) =
            Task.dir e.objectID ("p" ++ "/" ++ e.name)) ∨
        (e.isDir = false ∧ (Task.obj 10 "p/a" 5 : Task) =
            Task.obj e.objectID ("p" ++ "/" ++ e.name) e.fileSize)) ∧
    (∃ f ∈ objNewErrors witnessEnv witnessCfg 4 "q" 5,
        f.kind.isLengthMismatch = true) := by
  obtain ⟨h1, h2, h3, h4⟩ := sentinel_expected_length
  exact ⟨h1 witnessEnv witnessCfg _ (by decide),
         h2 witnessEnv witnessCfg 4 "q" initialState _ (by decide),
         h3 witnessCfg "p" _ initialState _ (by decide),
         (h4 witnessEnv witnessCfg 4 "q" 5 (Or.inr (by norm_num))).mpr
           ⟨by norm_num, by decide⟩⟩

/-- C6: when root seeding succeeds, the run returns success exactly when
the failure list ends up empty, and otherwise a single aggregate error
carrying the total number of accumulated failures. -/
theorem run_aggregate_error (env : Env) (cfg : Config) (fuel : Nat) (s : VState)
    (h : enqueueRootsToVerify env cfg initialState = (none, s)) :
    ((runVerifyCommand env cfg fuel).1 = RunResult.success ↔
        (runVerifyCommand env cfg fuel).2.1.errors = []) ∧
    ((runVerifyCommand env cfg fuel).2.1.errors ≠ [] →
        (runVerifyCommand env cfg fuel).1 =
          RunResult.aggregate (runVerifyCommand env cfg fuel).2.1.errors.length) := by
  unfold runVerifyCommand
  rw [h]
  simp only
  split
  · rename_i hnil
    have hn2 : (processQueue env cfg fuel s []).1.errors = [] :=
      List.length_eq_zero.mp hnil
    simp [hnil, hn2]
  · rename_i hnil
    have hn2 : (processQueue env cfg fuel s []).1.errors ≠ [] := by
      intro hn
      rw [hn] at hnil
      exact hnil rfl
    simp [hnil, hn2]

theorem run_aggregate_error_witness :
    (runVerifyCommand failEnv failCfg 20).1 = RunResult.aggregate 5 ∧
    (runVerifyCommand failEnv failCfg 20).2.1.errors.length = 5 ∧
    (runVerifyCommand failEnv failCfg 20).2.1.queue = [] := by
  have h := run_aggregate_error failEnv failCfg 20
      ⟨[5, 4, 3, 2, 1], [],
        [Task.obj 1 "a" (-1), Task.obj 2 "b" (-1), Task.obj 3 "c" (-1),
         Task.obj 4 "d" (-1), Task.obj 5 "e" (-1)]⟩ (by decide)
  have hlen : (runVerifyCommand failEnv failCfg 20).2.1.errors.length = 5 := by decide
  have hne : (runVerifyCommand failEnv failCfg 20).2.1.errors ≠ [] := by decide
  refine ⟨?_, hlen, by decide⟩
  rw [h.2 hne, hlen]

end ObjectVerify
